/-
  Verification of the weekly settlement calculator of the Shr application.

  The embedding translates, from `app/utils.py` and `app/routes.py`:
    * `quant`                      — Decimal quantization to 2 places, ROUND_HALF_UP;
    * `is_last_week_of_month`      — month-end predicate on (Monday, Sunday) weeks;
    * `calculate_settlement_values`— the settlement pipeline (deductions, gross
      shares, advance subtraction, over-advance redistribution, salary top-up);
    * `validate_settlement_data`   — the (never invoked) input validator;
    * the debt-ledger transitions of `api_create_settlement`,
      `api_update_debt` and `api_delete_settlement`.

  Python `Decimal` values are modelled as rationals (ℚ).  `Decimal` division
  carries 28 significant digits; here division is exact rational division, the
  only place the model idealizes the arithmetic.  Dictionaries are modelled as
  association lists in insertion order (Python dicts preserve insertion order,
  and iteration in the source is in that order).
-/
import Mathlib

namespace Shr

/-! ### Decimal quantization (`app/utils.py`, `quant`) -/

/-- Round a rational to the nearest integer, ties away from zero
    (`decimal.ROUND_HALF_UP`). -/
def rhu (q : ℚ) : ℤ :=
  if 0 ≤ q then ⌊q + 1/2⌋ else -⌊-q + 1/2⌋

/-- `quant(v)`: quantize to 2 decimal places with ROUND_HALF_UP
    (`utils.py` line 10). -/
def quant (v : ℚ) : ℚ :=
  (rhu (v * 100) : ℚ) / 100

/-! ### Dates (`datetime.date`, `calendar.monthrange`) -/

/-- A calendar date as carried by `datetime.date`. -/
structure PyDate where
  year : Int
  month : Nat
  day : Nat
deriving DecidableEq, Repr

/-- Python `date` ordering: lexicographic on (year, month, day). -/
def PyDate.le (a b : PyDate) : Bool :=
  decide (a.year < b.year ∨ (a.year = b.year ∧
    (a.month < b.month ∨ (a.month = b.month ∧ a.day ≤ b.day))))

/-- `calendar.isleap`. -/
def isleap (y : Int) : Bool :=
  y % 4 == 0 && (y % 100 != 0 || y % 400 == 0)

/-- Second component of `calendar.monthrange`: number of days in the month. -/
def days_in_month (y : Int) (m : Nat) : Nat :=
  if m = 2 then (if isleap y then 29 else 28)
  else if m = 4 ∨ m = 6 ∨ m = 9 ∨ m = 11 then 30
  else 31

/-- `is_last_week_of_month` (`utils.py` lines 21–25): the week contains the
    last calendar day of the month of `week_start`. -/
def is_last_week_of_month (week_start week_end : PyDate) : Bool :=
  let last_day : PyDate :=
    ⟨week_start.year, week_start.month, days_in_month week_start.year week_start.month⟩
  PyDate.le week_start last_day && PyDate.le last_day week_end

/-! ### Configuration (`config.py`) -/

/-- The configuration constants read by `calculate_settlement_values` from
    `current_app.config`. -/
structure Config where
  fixed_shares : List (String × ℚ)
  felix_daily_salary : ℚ
  rent : ℚ
  milk_bill : ℚ
  debt_percent : ℚ
deriving Repr

/-- The values shipped in `config.py`. -/
def defaultConfig : Config where
  fixed_shares := [("Bett", 775/1000), ("Felix", 86/1000), ("Willy", 139/1000)]
  felix_daily_salary := 1000
  rent := 12000
  milk_bill := 1500
  debt_percent := 10/100

/-- `d.get(name, 0)` on an association list. -/
def lookupD (l : List (String × ℚ)) (k : String) : ℚ :=
  match l.find? (fun p => p.1 == k) with
  | some p => p.2
  | none => 0

/-! ### The settlement pipeline (`utils.py`, `calculate_settlement_values`) -/

/-- `salary_total` (`utils.py` lines 56–59): zero when a substitute worked the
    week, otherwise the daily rate times 7, quantized. -/
def salaryTotal (cfg : Config) (felix_substitute : Bool) : ℚ :=
  if felix_substitute then 0 else quant (cfg.felix_daily_salary * 7)

/-- `debt` (`utils.py` line 61): quantized debt service on quantized income. -/
def debtOf (cfg : Config) (income : ℚ) : ℚ :=
  quant (income * cfg.debt_percent)

/-- `rent` (`utils.py` lines 63–67). -/
def rentOf (cfg : Config) (week_start week_end : PyDate) : ℚ :=
  if is_last_week_of_month week_start week_end then cfg.rent else 0

/-- `milk` (`utils.py` lines 63–67). -/
def milkOf (cfg : Config) (week_start week_end : PyDate) : ℚ :=
  if is_last_week_of_month week_start week_end then cfg.milk_bill else 0

/-- `net_distributable` (`utils.py` lines 71–73). -/
def netDistributable (cfg : Config) (total_income total_expenses : ℚ)
    (week_start week_end : PyDate) (felix_substitute : Bool) : ℚ :=
  let income := quant total_income
  let expenses := quant total_expenses
  let net := income - (expenses + salaryTotal cfg felix_substitute +
    debtOf cfg income + rentOf cfg week_start week_end + milkOf cfg week_start week_end)
  quant (max net 0)

/-- First pass over `FIXED_SHARES` (`utils.py` lines 75–91): returns
    `(initial_payouts, over_advance_members, total_over_advance)`, lists in
    iteration order. -/
def firstPass (net_distributable : ℚ) (advances_dict : List (String × ℚ)) :
    List (String × ℚ) → List (String × ℚ) × List (String × ℚ) × ℚ
  | [] => ([], [], 0)
  | (name, ratio) :: rest =>
    let gross := quant (net_distributable * ratio)
    let advance := quant (lookupD advances_dict name)
    let net_payout := gross - advance
    let r := firstPass net_distributable advances_dict rest
    if net_payout < 0 then
      ((name, 0) :: r.1, (name, -net_payout) :: r.2.1, -net_payout + r.2.2)
    else
      ((name, net_payout) :: r.1, r.2.1, r.2.2)

/-- `valid_share_total` (`utils.py` lines 96–99): sum of the share ratios of
    members who did not over-advance. -/
def validShareTotal (oamKeys : List String) : List (String × ℚ) → ℚ
  | [] => 0
  | p :: rest =>
    (if oamKeys.contains p.1 then 0 else p.2) + validShareTotal oamKeys rest

/-- The redistribution loop (`utils.py` lines 101–106): members outside
    `over_advance_members` gain `quant(total_over_advance * ratio / valid_share_total)`. -/
def redistribute (shares : List (String × ℚ)) (oamKeys : List String)
    (total_over_advance valid_share_total : ℚ)
    (initial_payouts : List (String × ℚ)) : List (String × ℚ) :=
  initial_payouts.map (fun p =>
    if oamKeys.contains p.1 then p
    else (p.1, p.2 + quant (total_over_advance * (lookupD shares p.1 / valid_share_total))))

/-- `initial_payouts` after the redistribution step (`utils.py` lines 75–106):
    the provisional payouts to which the salary step is applied. -/
def provisionalPayouts (cfg : Config) (net_distributable : ℚ)
    (advances_dict : List (String × ℚ)) : List (String × ℚ) :=
  let r := firstPass net_distributable advances_dict cfg.fixed_shares
  if 0 < r.2.2 then
    let oamKeys := r.2.1.map Prod.fst
    redistribute cfg.fixed_shares oamKeys r.2.2 (validShareTotal oamKeys cfg.fixed_shares) r.1
  else r.1

/-- The salary step (`utils.py` lines 110–117): Felix receives `salary_total`
    on top of his share payout only when no substitute worked. -/
def applySalary (salary_total : ℚ) (felix_substitute : Bool)
    (payouts : List (String × ℚ)) : List (String × ℚ) :=
  payouts.map (fun p =>
    if p.1 == "Felix" && !felix_substitute then (p.1, p.2 + salary_total) else p)

/-- The dictionary returned by `calculate_settlement_values`. -/
structure SettlementResult where
  income : ℚ
  expenses : ℚ
  salary_total : ℚ
  debt : ℚ
  rent : ℚ
  milk : ℚ
  total_advances : ℚ
  net_distributable : ℚ
  gross_shares : List (String × ℚ)
  net_payouts : List (String × ℚ)
  week_start : PyDate
  week_end : PyDate
  felix_substitute : Bool
deriving Repr

/-- `calculate_settlement_values` (`utils.py` lines 38–138). -/
def calculate_settlement_values (cfg : Config) (total_income total_expenses : ℚ)
    (advances_dict : List (String × ℚ)) (week_start week_end : PyDate)
    (felix_substitute : Bool) : SettlementResult :=
  let income := quant total_income
  let expenses := quant total_expenses
  let salary_total := salaryTotal cfg felix_substitute
  let debt := debtOf cfg income
  let rent := rentOf cfg week_start week_end
  let milk := milkOf cfg week_start week_end
  let total_advances := quant ((advances_dict.map Prod.snd).sum)
  let net_distributable := netDistributable cfg total_income total_expenses
    week_start week_end felix_substitute
  let final_payouts := applySalary salary_total felix_substitute
    (provisionalPayouts cfg net_distributable advances_dict)
  let gross_shares := cfg.fixed_shares.map (fun p => (p.1, quant (net_distributable * p.2)))
  { income := income, expenses := expenses, salary_total := salary_total,
    debt := debt, rent := rent, milk := milk, total_advances := total_advances,
    net_distributable := net_distributable, gross_shares := gross_shares,
    net_payouts := final_payouts, week_start := week_start, week_end := week_end,
    felix_substitute := felix_substitute }

/-! ### Input validation (`utils.py`, `validate_settlement_data`) -/

/-- The pure checks of `validate_settlement_data` (`utils.py` lines 257–268).
    The duplicate-week database check of lines 270–278 touches persistence and
    is outside the computational model. -/
def validate_settlement_data (income expenses : ℚ) : List String :=
  (if income ≤ 0 then ["Income must be greater than 0"] else []) ++
  (if expenses < 0 then ["Expenses cannot be negative"] else []) ++
  (if income < expenses then ["Income cannot be less than expenses"] else [])

/-! ### Debt ledger (`app/routes.py`) -/

/-- The `Debt` row: total debt ever incurred and remaining unpaid debt. -/
structure DebtState where
  total_debt : ℚ
  remaining_debt : ℚ
deriving DecidableEq, Repr

/-- The invariant stated for `DebtState`. -/
def debtInvariant (d : DebtState) : Prop :=
  0 ≤ d.remaining_debt ∧ d.remaining_debt ≤ d.total_debt

instance (d : DebtState) : Decidable (debtInvariant d) := by
  unfold debtInvariant; infer_instance

/-- The debt transition of `api_create_settlement` (`routes.py` lines 162–179).
    Returns the new state and `actual_payment`. -/
def applyDebtPayment (debt : DebtState) (debt_payment : ℚ) : DebtState × ℚ :=
  if 0 < debt.remaining_debt then
    if debt.remaining_debt ≤ debt_payment then
      ({ debt with remaining_debt := 0 }, debt.remaining_debt)
    else
      ({ debt with remaining_debt := debt.remaining_debt - debt_payment }, debt_payment)
  else
    ({ total_debt := debt.total_debt + debt_payment,
       remaining_debt := debt.remaining_debt + debt_payment }, 0)

/-- The debt write of `api_update_debt` (`routes.py` lines 461–483): the
    supplied value is stored unconditionally. -/
def updateDebt (debt : DebtState) (new_remaining : ℚ) : DebtState :=
  { debt with remaining_debt := new_remaining }

/-- The debt reversal of `api_delete_settlement` (`routes.py` lines 568–573). -/
def reverseDebtPayment (debt : DebtState) (debt_deduction : ℚ) : DebtState :=
  if 0 < debt_deduction then
    let r := debt.remaining_debt + debt_deduction
    if debt.total_debt < r then ⟨r, r⟩ else ⟨debt.total_debt, r⟩
  else debt

/-- The computational core of `api_create_settlement` (`routes.py` lines
    130–181): the settlement is computed and the debt transition applied with
    no input validation in between. -/
def api_create_settlement_core (cfg : Config) (total_income total_expenses : ℚ)
    (advances_dict : List (String × ℚ)) (week_start week_end : PyDate)
    (felix_substitute : Bool) (debt : DebtState) :
    SettlementResult × DebtState × ℚ :=
  let c := calculate_settlement_values cfg total_income total_expenses
    advances_dict week_start week_end felix_substitute
  let r := applyDebtPayment debt c.debt
  (c, r.1, r.2)

/-! ### Derived notions used in the claims -/

/-- A member entry's net payout before zeroing: gross share minus quantized
    advance (`utils.py` lines 81–83). -/
def npv (net_distributable : ℚ) (advances_dict : List (String × ℚ))
    (p : String × ℚ) : ℚ :=
  quant (net_distributable * p.2) - quant (lookupD advances_dict p.1)

/-- A member entry is over-advanced when its net payout is negative
    (`utils.py` line 85). -/
def overAdv (net_distributable : ℚ) (advances_dict : List (String × ℚ))
    (p : String × ℚ) : Bool :=
  npv net_distributable advances_dict p < 0

/-! ### Quantization error bounds -/

theorem abs_rhu_sub_le (q : ℚ) : |(rhu q : ℚ) - q| ≤ 1/2 := by
  unfold rhu
  rcases le_or_lt 0 q with h | h
  · rw [if_pos h]
    have h1 : ((⌊q + 1/2⌋ : ℤ) : ℚ) ≤ q + 1/2 := Int.floor_le _
    have h2 : q + 1/2 < (⌊q + 1/2⌋ : ℤ) + 1 := Int.lt_floor_add_one _
    rw [abs_le]
    constructor <;> linarith
  · rw [if_neg (not_le.mpr h)]
    have h1 : ((⌊-q + 1/2⌋ : ℤ) : ℚ) ≤ -q + 1/2 := Int.floor_le _
    have h2 : -q + 1/2 < (⌊-q + 1/2⌋ : ℤ) + 1 := Int.lt_floor_add_one _
    rw [abs_le]
    push_cast
    constructor <;> linarith

theorem abs_quant_sub_le (v : ℚ) : |quant v - v| ≤ 1/200 := by
  unfold quant
  have h := abs_rhu_sub_le (v * 100)
  have heq : (rhu (v * 100) : ℚ) / 100 - v = ((rhu (v * 100) : ℚ) - v * 100) / 100 := by
    ring
  rw [heq, abs_div]
  have : |(100 : ℚ)| = 100 := by norm_num
  rw [this]
  linarith

theorem quant_nonneg (v : ℚ) (hv : 0 ≤ v) : 0 ≤ quant v := by
  unfold quant rhu
  rw [if_pos (by positivity : (0:ℚ) ≤ v * 100)]
  have h : (0:ℤ) ≤ ⌊v * 100 + 1/2⌋ := Int.floor_nonneg.mpr (by positivity)
  have : (0:ℚ) ≤ (⌊v * 100 + 1/2⌋ : ℚ) := by exact_mod_cast h
  linarith

theorem abs_sum_quant_sub_le (l : List ℚ) :
    |(l.map quant).sum - l.sum| ≤ (l.length : ℚ) / 200 := by
  induction l with
  | nil => simp
  | cons a t ih =>
    simp only [List.map_cons, List.sum_cons, List.length_cons]
    have h1 := abs_quant_sub_le a
    have h2 : quant a + (t.map quant).sum - (a + t.sum)
        = (quant a - a) + ((t.map quant).sum - t.sum) := by ring
    rw [h2]
    have h3 := abs_add (quant a - a) ((t.map quant).sum - t.sum)
    have h4 : ((t.length + 1 : ℕ) : ℚ) = (t.length : ℚ) + 1 := by push_cast; ring
    rw [h4]
    linarith

/-! ### List helper lemmas -/

theorem sum_map_sub {α : Type} (l : List α) (f g : α → ℚ) :
    (l.map (fun x => f x - g x)).sum = (l.map f).sum - (l.map g).sum := by
  induction l with
  | nil => simp
  | cons a t ih =>
    simp only [List.map_cons, List.sum_cons, ih]
    ring

theorem sum_map_ite_filter {α : Type} (l : List α) (c : α → Bool) (h : α → ℚ) :
    (l.map (fun x => if c x then 0 else h x)).sum
      = ((l.filter (fun x => !c x)).map h).sum := by
  induction l with
  | nil => simp
  | cons a t ih =>
    by_cases hc : c a <;> simp [List.filter_cons, hc, ih]

theorem contains_eq_true_iff (ks : List String) (k : String) :
    ks.contains k = true ↔ k ∈ ks := by
  simp [List.contains, List.elem_iff]

theorem find?_map_keypres {g : String × ℚ → String × ℚ}
    (hg : ∀ p, (g p).1 = p.1) (l : List (String × ℚ)) (k : String) :
    (l.map g).find? (fun q => q.1 == k) = (l.find? (fun q => q.1 == k)).map g := by
  induction l with
  | nil => simp
  | cons a t ih =>
    by_cases h : a.1 == k
    · simp [List.find?_cons, hg a, h]
    · simp only [List.map_cons, List.find?_cons, hg a, h]
      exact ih

theorem find?_eq_some_of_mem_keys (l : List (String × ℚ)) (k : String)
    (h : k ∈ l.map Prod.fst) : ∃ p, l.find? (fun q => q.1 == k) = some p ∧ p.1 = k := by
  induction l with
  | nil => simp at h
  | cons a t ih =>
    by_cases ha : a.1 = k
    · exact ⟨a, by simp [List.find?_cons, ha], ha⟩
    · have ht : k ∈ t.map Prod.fst := by
        simp only [List.map_cons, List.mem_cons] at h
        rcases h with h | h
        · exact absurd h.symm ha
        · exact h
      obtain ⟨p, hp, hpk⟩ := ih ht
      refine ⟨p, ?_, hpk⟩
      have hbeq : (a.1 == k) = false := by
        simp [ha]
      simp [List.find?_cons, hbeq, hp]

theorem find?_of_nodup (l : List (String × ℚ)) (p : String × ℚ)
    (hl : (l.map Prod.fst).Nodup) (hp : p ∈ l) :
    l.find? (fun q => q.1 == p.1) = some p := by
  induction l with
  | nil => simp at hp
  | cons a t ih =>
    rcases List.mem_cons.mp hp with rfl | hpt
    · simp [List.find?_cons]
    · have hkeys := (List.nodup_cons.mp hl)
      have hne : a.1 ≠ p.1 := by
        intro hcontra
        exact hkeys.1 (hcontra ▸ List.mem_map_of_mem Prod.fst hpt)
      have hbeq : (a.1 == p.1) = false := by simp [hne]
      simp only [List.find?_cons, hbeq]
      exact ih hkeys.2 hpt

theorem lookupD_of_nodup (l : List (String × ℚ)) (p : String × ℚ)
    (hl : (l.map Prod.fst).Nodup) (hp : p ∈ l) :
    lookupD l p.1 = p.2 := by
  rw [lookupD, find?_of_nodup l p hl hp]

theorem eq_of_nodup_keys (l : List (String × ℚ)) (p q : String × ℚ)
    (hl : (l.map Prod.fst).Nodup) (hp : p ∈ l) (hq : q ∈ l) (hk : p.1 = q.1) :
    p = q := by
  have h1 := find?_of_nodup l p hl hp
  have h2 := find?_of_nodup l q hl hq
  rw [hk] at h1
  rw [h1] at h2
  exact Option.some.inj h2

/-! ### Structural description of the settlement pipeline -/

theorem firstPass_eq (nd : ℚ) (adv : List (String × ℚ)) (l : List (String × ℚ)) :
    firstPass nd adv l =
      (l.map (fun p => (p.1, max (npv nd adv p) 0)),
       (l.filter (fun p => overAdv nd adv p)).map (fun p => (p.1, -(npv nd adv p))),
       ((l.filter (fun p => overAdv nd adv p)).map (fun p => -(npv nd adv p))).sum) := by
  induction l with
  | nil => simp [firstPass]
  | cons a t ih =>
    obtain ⟨name, ratio⟩ := a
    have hnpv : npv nd adv (name, ratio)
        = quant (nd * ratio) - quant (lookupD adv name) := rfl
    by_cases h : quant (nd * ratio) - quant (lookupD adv name) < 0
    · have hov : overAdv nd adv (name, ratio) = true := by
        simp [overAdv, hnpv, h]
      have hmax : max (quant (nd * ratio) - quant (lookupD adv name)) 0 = 0 :=
        max_eq_right (le_of_lt h)
      simp only [firstPass, ih, if_pos h, List.filter_cons, hov, if_true,
        List.map_cons, List.sum_cons, hnpv, hmax]
    · have hov : overAdv nd adv (name, ratio) = false := by
        simp [overAdv, hnpv, h]
      have hmax : max (quant (nd * ratio) - quant (lookupD adv name)) 0
          = quant (nd * ratio) - quant (lookupD adv name) := by
        have := le_of_not_lt h
        exact max_eq_left (by linarith)
      simp only [firstPass, ih, if_neg h, List.filter_cons, hov,
        List.map_cons, List.sum_cons, Bool.false_eq_true, if_false, hnpv, hmax]

theorem validShareTotal_eq (ks : List String) (l : List (String × ℚ)) :
    validShareTotal ks l = ((l.filter (fun p => !(ks.contains p.1))).map Prod.snd).sum := by
  induction l with
  | nil => simp [validShareTotal]
  | cons a t ih =>
    rw [validShareTotal, List.filter_cons, ih]
    by_cases h : ks.contains a.1 = true
    · rw [if_pos h, if_neg (by rw [h]; decide), zero_add]
    · have h' : ks.contains a.1 = false := by
        revert h; cases ks.contains a.1 <;> simp
      rw [if_neg h, if_pos (by rw [h']; decide), List.map_cons, List.sum_cons]

/-- Over-advanced entries make `total_over_advance` strictly positive. -/
theorem toa_pos (nd : ℚ) (adv : List (String × ℚ)) (l : List (String × ℚ))
    (h : ∃ p ∈ l, overAdv nd adv p = true) :
    0 < (firstPass nd adv l).2.2 := by
  obtain ⟨p, hpl, hpov⟩ := h
  rw [firstPass_eq]
  apply List.sum_pos
  · intro x hx
    obtain ⟨q, hq, rfl⟩ := List.mem_map.mp hx
    have : overAdv nd adv q = true := (List.mem_filter.mp hq).2
    have : npv nd adv q < 0 := by
      simpa [overAdv] using this
    linarith
  · have hpf : p ∈ l.filter (fun p => overAdv nd adv p) :=
      List.mem_filter.mpr ⟨hpl, hpov⟩
    intro hnil
    rw [List.map_eq_nil_iff] at hnil
    rw [hnil] at hpf
    simp at hpf

/-- The keys of `over_advance_members`, in terms of the share table. -/
theorem oamKeys_eq (nd : ℚ) (adv : List (String × ℚ)) (l : List (String × ℚ)) :
    (firstPass nd adv l).2.1.map Prod.fst
      = (l.filter (fun p => overAdv nd adv p)).map Prod.fst := by
  rw [firstPass_eq]
  rw [List.map_map]
  rfl

/-- Membership of a member's name among the over-advance keys decides exactly
    by that member's own status, when names are unique. -/
theorem contains_oamKeys (nd : ℚ) (adv : List (String × ℚ)) (l : List (String × ℚ))
    (hl : (l.map Prod.fst).Nodup) (p : String × ℚ) (hp : p ∈ l) :
    ((firstPass nd adv l).2.1.map Prod.fst).contains p.1 = overAdv nd adv p := by
  rw [oamKeys_eq]
  by_cases hov : overAdv nd adv p = true
  · rw [hov]
    rw [contains_eq_true_iff]
    exact List.mem_map_of_mem Prod.fst (List.mem_filter.mpr ⟨hp, hov⟩)
  · rw [Bool.not_eq_true] at hov
    rw [hov]
    rw [Bool.eq_false_iff]
    intro hcontra
    rw [contains_eq_true_iff] at hcontra
    obtain ⟨q, hqf, hqk⟩ := List.mem_map.mp hcontra
    have hq := List.mem_filter.mp hqf
    have : q = p := eq_of_nodup_keys l q p hl hq.1 hp hqk
    rw [this] at hq
    rw [hq.2] at hov
    exact Bool.true_eq_false.mp hov

theorem pp_eq_redistribute (cfg : Config) (nd : ℚ) (adv : List (String × ℚ))
    (h : 0 < (firstPass nd adv cfg.fixed_shares).2.2) :
    provisionalPayouts cfg nd adv =
      redistribute cfg.fixed_shares ((firstPass nd adv cfg.fixed_shares).2.1.map Prod.fst)
        (firstPass nd adv cfg.fixed_shares).2.2
        (validShareTotal ((firstPass nd adv cfg.fixed_shares).2.1.map Prod.fst) cfg.fixed_shares)
        (firstPass nd adv cfg.fixed_shares).1 := by
  unfold provisionalPayouts
  rw [if_pos h]

theorem pp_eq_initial (cfg : Config) (nd : ℚ) (adv : List (String × ℚ))
    (h : ¬ 0 < (firstPass nd adv cfg.fixed_shares).2.2) :
    provisionalPayouts cfg nd adv = (firstPass nd adv cfg.fixed_shares).1 := by
  unfold provisionalPayouts
  rw [if_neg h]

/-- Provisional payout of each configured member after redistribution: zero
    for over-advanced members, share-proportional top-up for the rest. -/
theorem lookupD_pp (cfg : Config) (nd : ℚ) (adv : List (String × ℚ))
    (hnodup : (cfg.fixed_shares.map Prod.fst).Nodup)
    (p : String × ℚ) (hp : p ∈ cfg.fixed_shares)
    (htoa : 0 < (firstPass nd adv cfg.fixed_shares).2.2) :
    lookupD (provisionalPayouts cfg nd adv) p.1 =
      if overAdv nd adv p = true then 0
      else npv nd adv p + quant ((firstPass nd adv cfg.fixed_shares).2.2 *
        (p.2 / validShareTotal ((firstPass nd adv cfg.fixed_shares).2.1.map Prod.fst)
          cfg.fixed_shares)) := by
  rw [pp_eq_redistribute cfg nd adv htoa]
  have hcont := contains_oamKeys nd adv cfg.fixed_shares hnodup p hp
  have hip : (firstPass nd adv cfg.fixed_shares).1
      = cfg.fixed_shares.map (fun q => (q.1, max (npv nd adv q) 0)) := by
    rw [firstPass_eq]
  unfold redistribute
  rw [hip, List.map_map]
  have hkey : ∀ q : String × ℚ,
      (((fun p => if ((firstPass nd adv cfg.fixed_shares).2.1.map Prod.fst).contains p.1
          then p
          else (p.1, p.2 + quant ((firstPass nd adv cfg.fixed_shares).2.2 *
            (lookupD cfg.fixed_shares p.1 /
              validShareTotal ((firstPass nd adv cfg.fixed_shares).2.1.map Prod.fst)
                cfg.fixed_shares)))) ∘
        (fun q => (q.1, max (npv nd adv q) 0))) q).1 = q.1 := by
    intro q
    simp only [Function.comp]
    by_cases hc : ((firstPass nd adv cfg.fixed_shares).2.1.map Prod.fst).contains q.1 = true
    · rw [if_pos hc]
    · rw [if_neg hc]
  rw [lookupD, find?_map_keypres hkey, find?_of_nodup cfg.fixed_shares p hnodup hp]
  simp only [Option.map_some', Function.comp]
  by_cases hov : overAdv nd adv p = true
  · rw [if_pos hov]
    have hnpvlt : npv nd adv p < 0 := by simpa [overAdv] using hov
    rw [hcont.trans hov]
    simp only [if_true]
    exact max_eq_right (le_of_lt hnpvlt)
  · have hovf : overAdv nd adv p = false := by
      revert hov; cases overAdv nd adv p <;> simp
    rw [if_neg hov, hcont.trans hovf]
    simp only [Bool.false_eq_true, if_false]
    have hnpvge : 0 ≤ npv nd adv p := by
      have : ¬ npv nd adv p < 0 := by simpa [overAdv] using hovf
      linarith
    rw [max_eq_left hnpvge, lookupD_of_nodup cfg.fixed_shares p hnodup hp]

theorem sum_map_add {α : Type} (l : List α) (f g : α → ℚ) :
    (l.map (fun x => f x + g x)).sum = (l.map f).sum + (l.map g).sum := by
  induction l with
  | nil => simp
  | cons a t ih =>
    simp only [List.map_cons, List.sum_cons, ih]
    ring

theorem sum_map_mul_left {α : Type} (l : List α) (c : ℚ) (f : α → ℚ) :
    (l.map (fun x => c * f x)).sum = c * (l.map f).sum := by
  induction l with
  | nil => simp
  | cons a t ih =>
    simp only [List.map_cons, List.sum_cons, ih]
    ring

theorem my_filter_congr {α : Type} (l : List α) (p q : α → Bool)
    (h : ∀ x ∈ l, p x = q x) : l.filter p = l.filter q := by
  induction l with
  | nil => simp
  | cons a t ih =>
    have ha := h a (List.mem_cons_self a t)
    have ht := ih (fun x hx => h x (List.mem_cons_of_mem a hx))
    rw [List.filter_cons, List.filter_cons, ha, ht]

theorem my_map_congr {α β : Type} (l : List α) (f g : α → β)
    (h : ∀ x ∈ l, f x = g x) : l.map f = l.map g := by
  induction l with
  | nil => simp
  | cons a t ih =>
    rw [List.map_cons, List.map_cons, h a (List.mem_cons_self a t),
      ih (fun x hx => h x (List.mem_cons_of_mem a hx))]

theorem filter_map_keypres {g : String × ℚ → String × ℚ}
    (hg : ∀ p, (g p).1 = p.1) (ks : List String) (l : List (String × ℚ)) :
    (l.map g).filter (fun p => !(ks.contains p.1))
      = (l.filter (fun p => !(ks.contains p.1))).map g := by
  induction l with
  | nil => simp
  | cons a t ih =>
    rw [List.map_cons, List.filter_cons, List.filter_cons, hg a]
    by_cases h : (!(ks.contains a.1)) = true
    · rw [if_pos h, if_pos h, List.map_cons, ih]
    · rw [if_neg h, if_neg h, ih]

/-- Total added by redistribution: the quantized proportional amounts of the
    members outside `over_advance_members`. -/
theorem redistribute_sum (shares : List (String × ℚ)) (ks : List String)
    (toa S : ℚ) (ip : List (String × ℚ)) :
    ((redistribute shares ks toa S ip).map Prod.snd).sum
      = (ip.map Prod.snd).sum +
        ((ip.filter (fun p => !(ks.contains p.1))).map
          (fun p => quant (toa * (lookupD shares p.1 / S)))).sum := by
  unfold redistribute
  rw [List.map_map]
  have hfun : ∀ p : String × ℚ,
      (Prod.snd ∘ (fun p => if ks.contains p.1 then p
        else (p.1, p.2 + quant (toa * (lookupD shares p.1 / S))))) p
      = p.2 + (if ks.contains p.1 then 0
          else quant (toa * (lookupD shares p.1 / S))) := by
    intro p
    by_cases hc : ks.contains p.1 = true
    · simp only [Function.comp, if_pos hc, add_zero]
    · simp only [Function.comp, if_neg hc]
  rw [my_map_congr _ _ _ (fun p _ => hfun p), sum_map_add]
  rw [sum_map_ite_filter]

/-- The redistributed amounts reach the members not over-advanced, and their
    sum reproduces `total_over_advance` up to the quantization error of each
    normal member. -/
theorem redistribution_conservation (cfg : Config) (nd : ℚ)
    (adv : List (String × ℚ))
    (hnodup : (cfg.fixed_shares.map Prod.fst).Nodup)
    (htoa : 0 < (firstPass nd adv cfg.fixed_shares).2.2)
    (hS : 0 < validShareTotal ((firstPass nd adv cfg.fixed_shares).2.1.map Prod.fst)
      cfg.fixed_shares) :
    |((provisionalPayouts cfg nd adv).map Prod.snd).sum
      - ((firstPass nd adv cfg.fixed_shares).1.map Prod.snd).sum
      - (firstPass nd adv cfg.fixed_shares).2.2|
    ≤ ((cfg.fixed_shares.filter (fun p => !(overAdv nd adv p))).length : ℚ) / 100 := by
  set toa := (firstPass nd adv cfg.fixed_shares).2.2 with htoa_def
  set ks := (firstPass nd adv cfg.fixed_shares).2.1.map Prod.fst with hks_def
  set S := validShareTotal ks cfg.fixed_shares with hS_def
  rw [pp_eq_redistribute cfg nd adv htoa]
  rw [redistribute_sum cfg.fixed_shares ks toa S]
  have hip : (firstPass nd adv cfg.fixed_shares).1
      = cfg.fixed_shares.map (fun q => (q.1, max (npv nd adv q) 0)) := by
    rw [firstPass_eq]
  -- rewrite the filtered initial payouts as the filtered share table
  have hkeypres : ∀ q : String × ℚ, ((fun q => (q.1, max (npv nd adv q) 0)) q).1 = q.1 :=
    fun _ => rfl
  have hfilter : ((firstPass nd adv cfg.fixed_shares).1.filter
        (fun p => !(ks.contains p.1))).map
        (fun p => quant (toa * (lookupD cfg.fixed_shares p.1 / S)))
      = (cfg.fixed_shares.filter (fun p => !(overAdv nd adv p))).map
        (fun p => quant (toa * (p.2 / S))) := by
    rw [hip, filter_map_keypres hkeypres, List.map_map]
    have hfc : cfg.fixed_shares.filter (fun p => !(ks.contains p.1))
        = cfg.fixed_shares.filter (fun p => !(overAdv nd adv p)) := by
      apply my_filter_congr
      intro p hp
      rw [hks_def, contains_oamKeys nd adv cfg.fixed_shares hnodup p hp]
    rw [hfc]
    apply my_map_congr
    intro p hp
    have hps : p ∈ cfg.fixed_shares := (List.mem_filter.mp hp).1
    simp only [Function.comp]
    rw [lookupD_of_nodup cfg.fixed_shares p hnodup hps]
  rw [hfilter]
  -- the target quantities
  set N := cfg.fixed_shares.filter (fun p => !(overAdv nd adv p)) with hN_def
  have hsum_exact : (N.map (fun p => toa * (p.2 / S))).sum = toa := by
    have h1 : (N.map (fun p => toa * (p.2 / S))).sum
        = (N.map (fun p => (toa / S) * p.2)).sum := by
      apply congrArg
      apply my_map_congr
      intro p _
      ring
    have h2 : (N.map (fun p => (toa / S) * p.2)).sum
        = (toa / S) * (N.map Prod.snd).sum := sum_map_mul_left N (toa / S) Prod.snd
    have h3 : (N.map Prod.snd).sum = S := by
      rw [hS_def, validShareTotal_eq, hN_def]
      have hfc : cfg.fixed_shares.filter (fun p => !(ks.contains p.1))
          = cfg.fixed_shares.filter (fun p => !(overAdv nd adv p)) := by
        apply my_filter_congr
        intro p hp
        rw [hks_def, contains_oamKeys nd adv cfg.fixed_shares hnodup p hp]
      rw [hfc]
    rw [h1, h2, h3]
    field_simp
  have hquant : (N.map (fun p => quant (toa * (p.2 / S)))).sum
      = ((N.map (fun p => toa * (p.2 / S))).map quant).sum := by
    rw [List.map_map]
    rfl
  have herr := abs_sum_quant_sub_le (N.map (fun p => toa * (p.2 / S)))
  rw [hsum_exact, List.length_map] at herr
  have hgoal : (firstPass nd adv cfg.fixed_shares).1.map Prod.snd
      = (firstPass nd adv cfg.fixed_shares).1.map Prod.snd := rfl
  have habs : |((firstPass nd adv cfg.fixed_shares).1.map Prod.snd).sum
        + (N.map (fun p => quant (toa * (p.2 / S)))).sum
        - ((firstPass nd adv cfg.fixed_shares).1.map Prod.snd).sum - toa|
      = |((N.map (fun p => toa * (p.2 / S))).map quant).sum - toa| := by
    rw [hquant]
    congr 1
    ring
  rw [habs]
  have hlen : (0:ℚ) ≤ (N.length : ℚ) := by positivity
  calc |((N.map (fun p => toa * (p.2 / S))).map quant).sum - toa|
      ≤ (N.length : ℚ) / 200 := herr
    _ ≤ (N.length : ℚ) / 100 := by linarith

theorem applySalary_keypres (s : ℚ) (sub : Bool) :
    ∀ p : String × ℚ,
      ((fun p => if p.1 == "Felix" && !sub then (p.1, p.2 + s) else p) p).1 = p.1 := by
  intro p
  show (if p.1 == "Felix" && !sub then (p.1, p.2 + s) else p).1 = p.1
  by_cases h : (p.1 == "Felix" && !sub) = true
  · rw [if_pos h]
  · rw [if_neg h]

theorem lookupD_applySalary_felix (s : ℚ) (sub : Bool) (l : List (String × ℚ))
    (hF : "Felix" ∈ l.map Prod.fst) :
    lookupD (applySalary s sub l) "Felix"
      = lookupD l "Felix" + (if sub then 0 else s) := by
  unfold applySalary
  rw [lookupD, lookupD, find?_map_keypres (applySalary_keypres s sub)]
  obtain ⟨p, hp, hpk⟩ := find?_eq_some_of_mem_keys l "Felix" hF
  rw [hp]
  simp only [Option.map_some']
  cases sub with
  | false =>
    have hc : (p.1 == "Felix" && !false) = true := by
      rw [hpk]; decide
    rw [if_pos hc]
    simp
  | true =>
    have hc : ¬ ((p.1 == "Felix" && !true) = true) := by simp
    rw [if_neg hc]
    simp

theorem lookupD_applySalary_other (s : ℚ) (sub : Bool) (l : List (String × ℚ))
    (n : String) (hn : n ≠ "Felix") :
    lookupD (applySalary s sub l) n = lookupD l n := by
  unfold applySalary
  rw [lookupD, lookupD, find?_map_keypres (applySalary_keypres s sub)]
  cases hfind : l.find? (fun q => q.1 == n) with
  | none => simp
  | some p =>
    have hpk : p.1 = n := by
      have := List.find?_some hfind
      simpa using this
    simp only [Option.map_some']
    have hc : ¬ ((p.1 == "Felix" && !sub) = true) := by
      have hne : p.1 ≠ "Felix" := hpk ▸ hn
      simp [hne]
    rw [if_neg hc]

/-- The returned payouts are the salary step applied to the provisional
    payouts. -/
theorem net_payouts_eq (cfg : Config) (ti te : ℚ) (adv : List (String × ℚ))
    (ws we : PyDate) (sub : Bool) :
    (calculate_settlement_values cfg ti te adv ws we sub).net_payouts
      = applySalary (salaryTotal cfg sub) sub
          (provisionalPayouts cfg (netDistributable cfg ti te ws we sub) adv) := rfl

theorem firstPass_keys (nd : ℚ) (adv : List (String × ℚ)) (l : List (String × ℚ)) :
    (firstPass nd adv l).1.map Prod.fst = l.map Prod.fst := by
  rw [firstPass_eq, List.map_map]
  exact my_map_congr _ _ _ (fun p _ => rfl)

theorem redistribute_keys (shares : List (String × ℚ)) (ks : List String)
    (toa S : ℚ) (ip : List (String × ℚ)) :
    (redistribute shares ks toa S ip).map Prod.fst = ip.map Prod.fst := by
  unfold redistribute
  rw [List.map_map]
  apply my_map_congr
  intro p _
  simp only [Function.comp]
  by_cases hc : ks.contains p.1 = true
  · rw [if_pos hc]
  · rw [if_neg hc]

theorem pp_keys (cfg : Config) (nd : ℚ) (adv : List (String × ℚ)) :
    (provisionalPayouts cfg nd adv).map Prod.fst = cfg.fixed_shares.map Prod.fst := by
  by_cases h : 0 < (firstPass nd adv cfg.fixed_shares).2.2
  · rw [pp_eq_redistribute cfg nd adv h, redistribute_keys, firstPass_keys]
  · rw [pp_eq_initial cfg nd adv h, firstPass_keys]

theorem my_filter_eq_self {α : Type} (l : List α) (p : α → Bool)
    (h : ∀ x ∈ l, p x = true) : l.filter p = l := by
  induction l with
  | nil => simp
  | cons a t ih =>
    rw [List.filter_cons, if_pos (h a (List.mem_cons_self a t)),
      ih (fun x hx => h x (List.mem_cons_of_mem a hx))]

/-! ## Claim theorems -/

/-- C4: the settlement calculator returns `net_distributable` equal to the
    quantization of `max 0 (income − (expenses + salary + debt_due + rent +
    milk))` with `debt_due` the quantization of `income × debt_percent`, and
    the returned `net_distributable` is never negative. -/
theorem c4_net_distributable_formula (cfg : Config) (ti te : ℚ)
    (adv : List (String × ℚ)) (ws we : PyDate) (sub : Bool) :
    (calculate_settlement_values cfg ti te adv ws we sub).net_distributable
      = quant (max 0 ((calculate_settlement_values cfg ti te adv ws we sub).income
        - ((calculate_settlement_values cfg ti te adv ws we sub).expenses
          + (calculate_settlement_values cfg ti te adv ws we sub).salary_total
          + (calculate_settlement_values cfg ti te adv ws we sub).debt
          + (calculate_settlement_values cfg ti te adv ws we sub).rent
          + (calculate_settlement_values cfg ti te adv ws we sub).milk)))
    ∧ (calculate_settlement_values cfg ti te adv ws we sub).debt
      = quant ((calculate_settlement_values cfg ti te adv ws we sub).income * cfg.debt_percent)
    ∧ 0 ≤ (calculate_settlement_values cfg ti te adv ws we sub).net_distributable := by
  refine ⟨?_, rfl, ?_⟩
  · rw [max_comm]
    rfl
  · show 0 ≤ netDistributable cfg ti te ws we sub
    unfold netDistributable
    exact quant_nonneg _ (le_max_right _ _)

/-- C5 (code-bug evidence): `validate_settlement_data` rejects a negative
    income, yet `api_create_settlement` never invokes it — the route computes
    a full settlement from income = −100 and even drives the debt ledger
    negative. -/
theorem c5_validation_never_invoked :
    validate_settlement_data (-100) 0 ≠ [] ∧
    (api_create_settlement_core defaultConfig (-100) 0 [] ⟨2024,1,8⟩ ⟨2024,1,14⟩
      false ⟨0,0⟩).1.income = -100 ∧
    (api_create_settlement_core defaultConfig (-100) 0 [] ⟨2024,1,8⟩ ⟨2024,1,14⟩
      false ⟨0,0⟩).1.net_distributable = 0 ∧
    (api_create_settlement_core defaultConfig (-100) 0 [] ⟨2024,1,8⟩ ⟨2024,1,14⟩
      false ⟨0,0⟩).2.1 = ⟨-10, -10⟩ := by
  refine ⟨by decide, ?_, ?_, ?_⟩
  · norm_num [api_create_settlement_core, calculate_settlement_values, quant, rhu]
  · norm_num [api_create_settlement_core, calculate_settlement_values, netDistributable,
      salaryTotal, debtOf, rentOf, milkOf, is_last_week_of_month, days_in_month, isleap,
      PyDate.le, defaultConfig, quant, rhu]
  · norm_num [api_create_settlement_core, calculate_settlement_values, netDistributable,
      salaryTotal, debtOf, rentOf, milkOf, is_last_week_of_month, days_in_month, isleap,
      PyDate.le, defaultConfig, quant, rhu, applyDebtPayment]

/-- C6 counterexample: the admin debt update stores the supplied value
    unconditionally, so a valid state (total 100, remaining 50) updated to
    remaining 200 violates `0 ≤ remaining_debt ≤ total_debt`. -/
theorem c6_debt_invariant_counterexample :
    debtInvariant ⟨100, 50⟩ ∧ ¬ debtInvariant (updateDebt ⟨100, 50⟩ 200) := by
  decide

/-- C6 (amended): the debt invariant is preserved by the settlement debt
    transition (for a nonnegative payment) and by the settlement-deletion
    reversal, but not by the admin update, which writes the supplied value
    unchecked. -/
theorem c6_debt_invariant_amended (d : DebtState) (p x : ℚ)
    (hd : debtInvariant d) :
    (0 ≤ p → debtInvariant (applyDebtPayment d p).1) ∧
    debtInvariant (reverseDebtPayment d x) := by
  obtain ⟨h0, h1⟩ := hd
  constructor
  · intro hp
    unfold applyDebtPayment
    by_cases h : 0 < d.remaining_debt
    · rw [if_pos h]
      by_cases hc : d.remaining_debt ≤ p
      · rw [if_pos hc]
        exact ⟨le_refl 0, le_trans h0 h1⟩
      · rw [if_neg hc]
        push_neg at hc
        exact ⟨by simp only; linarith, by simp only; linarith⟩
    · rw [if_neg h]
      exact ⟨by simp only; linarith, by simp only; linarith⟩
  · unfold reverseDebtPayment
    by_cases h : 0 < x
    · rw [if_pos h]
      by_cases hc : d.total_debt < d.remaining_debt + x
      · rw [if_pos hc]
        exact ⟨by simp only; linarith, le_refl _⟩
      · rw [if_neg hc]
        push_neg at hc
        exact ⟨by simp only; linarith, hc⟩
    · rw [if_neg h]
      exact ⟨h0, h1⟩

theorem c6_debt_invariant_amended_witness :
    debtInvariant ⟨100, 50⟩ ∧ (0:ℚ) ≤ 30 ∧
    debtInvariant (applyDebtPayment ⟨100, 50⟩ 30).1 ∧
    debtInvariant (reverseDebtPayment ⟨100, 50⟩ 20) :=
  ⟨by decide, by decide,
   (c6_debt_invariant_amended ⟨100, 50⟩ 30 20 (by decide)).1 (by decide),
   (c6_debt_invariant_amended ⟨100, 50⟩ 30 20 (by decide)).2⟩

/-- C7: with remaining debt positive the applied payment is
    `min debt_due remaining` and the remaining debt decreases by exactly that
    amount; with remaining debt zero, `debt_due` is added to both totals and
    no payment is applied. -/
theorem c7_debt_transition (d : DebtState) (p : ℚ) :
    (0 < d.remaining_debt →
      (applyDebtPayment d p).2 = min p d.remaining_debt ∧
      (applyDebtPayment d p).1.remaining_debt
        = d.remaining_debt - min p d.remaining_debt ∧
      (applyDebtPayment d p).1.total_debt = d.total_debt) ∧
    (d.remaining_debt = 0 →
      (applyDebtPayment d p).1.total_debt = d.total_debt + p ∧
      (applyDebtPayment d p).1.remaining_debt = p ∧
      (applyDebtPayment d p).2 = 0) := by
  constructor
  · intro h
    unfold applyDebtPayment
    rw [if_pos h]
    by_cases hc : d.remaining_debt ≤ p
    · rw [if_pos hc, min_eq_right hc]
      exact ⟨rfl, by simp only; ring, rfl⟩
    · push_neg at hc
      rw [if_neg (not_le.mpr hc), min_eq_left (le_of_lt hc)]
      exact ⟨rfl, rfl, rfl⟩
  · intro h
    unfold applyDebtPayment
    rw [if_neg (by rw [h]; exact lt_irrefl 0)]
    exact ⟨rfl, by simp only [h]; ring, rfl⟩

theorem c7_debt_transition_witness :
    (0:ℚ) < (DebtState.mk 100 50).remaining_debt ∧
    (applyDebtPayment ⟨100, 50⟩ 30).2 = min 30 50 ∧
    (applyDebtPayment ⟨100, 50⟩ 30).1.remaining_debt = 50 - min 30 50 ∧
    (applyDebtPayment ⟨100, 50⟩ 30).1.total_debt = 100 ∧
    (DebtState.mk 100 0).remaining_debt = 0 ∧
    (applyDebtPayment ⟨100, 0⟩ 30).1.total_debt = 100 + 30 ∧
    (applyDebtPayment ⟨100, 0⟩ 30).1.remaining_debt = 30 ∧
    (applyDebtPayment ⟨100, 0⟩ 30).2 = 0 := by
  refine ⟨by decide, ?_, ?_, ?_, by decide, ?_, ?_, ?_⟩
  · exact ((c7_debt_transition ⟨100, 50⟩ 30).1 (by decide)).1
  · exact ((c7_debt_transition ⟨100, 50⟩ 30).1 (by decide)).2.1
  · exact ((c7_debt_transition ⟨100, 50⟩ 30).1 (by decide)).2.2
  · exact ((c7_debt_transition ⟨100, 0⟩ 30).2 (by decide)).1
  · exact ((c7_debt_transition ⟨100, 0⟩ 30).2 (by decide)).2.1
  · exact ((c7_debt_transition ⟨100, 0⟩ 30).2 (by decide)).2.2

/-- C8: rent and milk deductions equal the configured amounts exactly when
    the week contains the last calendar day of the month of its Monday and
    are 0 otherwise; the week 2024-01-29 to 2024-02-04 triggers them, a week
    interior to a month does not. -/
theorem c8_month_end_deductions (cfg : Config) (ti te : ℚ)
    (adv : List (String × ℚ)) (ws we : PyDate) (sub : Bool) :
    (is_last_week_of_month ws we = true →
      (calculate_settlement_values cfg ti te adv ws we sub).rent = cfg.rent ∧
      (calculate_settlement_values cfg ti te adv ws we sub).milk = cfg.milk_bill) ∧
    (is_last_week_of_month ws we = false →
      (calculate_settlement_values cfg ti te adv ws we sub).rent = 0 ∧
      (calculate_settlement_values cfg ti te adv ws we sub).milk = 0) ∧
    is_last_week_of_month ⟨2024,1,29⟩ ⟨2024,2,4⟩ = true ∧
    is_last_week_of_month ⟨2024,1,8⟩ ⟨2024,1,14⟩ = false := by
  refine ⟨?_, ?_, by decide, by decide⟩
  · intro h
    constructor
    · show rentOf cfg ws we = cfg.rent
      unfold rentOf
      rw [if_pos h]
    · show milkOf cfg ws we = cfg.milk_bill
      unfold milkOf
      rw [if_pos h]
  · intro h
    constructor
    · show rentOf cfg ws we = 0
      unfold rentOf
      rw [if_neg (by rw [h]; decide)]
    · show milkOf cfg ws we = 0
      unfold milkOf
      rw [if_neg (by rw [h]; decide)]

theorem c8_month_end_deductions_witness :
    is_last_week_of_month ⟨2024,1,29⟩ ⟨2024,2,4⟩ = true ∧
    (calculate_settlement_values defaultConfig 100 0 [] ⟨2024,1,29⟩ ⟨2024,2,4⟩ true).rent
      = defaultConfig.rent ∧
    (calculate_settlement_values defaultConfig 100 0 [] ⟨2024,1,29⟩ ⟨2024,2,4⟩ true).milk
      = defaultConfig.milk_bill ∧
    is_last_week_of_month ⟨2024,1,8⟩ ⟨2024,1,14⟩ = false ∧
    (calculate_settlement_values defaultConfig 100 0 [] ⟨2024,1,8⟩ ⟨2024,1,14⟩ true).rent = 0 ∧
    (calculate_settlement_values defaultConfig 100 0 [] ⟨2024,1,8⟩ ⟨2024,1,14⟩ true).milk = 0 := by
  refine ⟨by decide, ?_, ?_, by decide, ?_, ?_⟩
  · exact ((c8_month_end_deductions defaultConfig 100 0 [] ⟨2024,1,29⟩ ⟨2024,2,4⟩ true).1
      (by decide)).1
  · exact ((c8_month_end_deductions defaultConfig 100 0 [] ⟨2024,1,29⟩ ⟨2024,2,4⟩ true).1
      (by decide)).2
  · exact ((c8_month_end_deductions defaultConfig 100 0 [] ⟨2024,1,8⟩ ⟨2024,1,14⟩ true).2.1
      (by decide)).1
  · exact ((c8_month_end_deductions defaultConfig 100 0 [] ⟨2024,1,8⟩ ⟨2024,1,14⟩ true).2.1
      (by decide)).2

/-- C3: the operator's final payout is his post-redistribution provisional
    payout plus the weekly salary (daily rate × 7, quantized) exactly when the
    substitute flag is false; with the flag set the salary is 0 and he gets
    the provisional payout only; every other member's final payout equals
    their provisional payout in both cases. -/
theorem c3_salary_application (cfg : Config) (ti te : ℚ)
    (adv : List (String × ℚ)) (ws we : PyDate) (sub : Bool)
    (hF : "Felix" ∈ cfg.fixed_shares.map Prod.fst) :
    (sub = false →
      (calculate_settlement_values cfg ti te adv ws we sub).salary_total
        = quant (cfg.felix_daily_salary * 7) ∧
      lookupD (calculate_settlement_values cfg ti te adv ws we sub).net_payouts "Felix"
        = lookupD (provisionalPayouts cfg (netDistributable cfg ti te ws we sub) adv) "Felix"
          + quant (cfg.felix_daily_salary * 7)) ∧
    (sub = true →
      (calculate_settlement_values cfg ti te adv ws we sub).salary_total = 0 ∧
      lookupD (calculate_settlement_values cfg ti te adv ws we sub).net_payouts "Felix"
        = lookupD (provisionalPayouts cfg (netDistributable cfg ti te ws we sub) adv) "Felix") ∧
    (∀ n, n ≠ "Felix" →
      lookupD (calculate_settlement_values cfg ti te adv ws we sub).net_payouts n
        = lookupD (provisionalPayouts cfg (netDistributable cfg ti te ws we sub) adv) n) := by
  have hpp : "Felix" ∈ (provisionalPayouts cfg (netDistributable cfg ti te ws we sub)
      adv).map Prod.fst := by
    rw [pp_keys]
    exact hF
  refine ⟨?_, ?_, ?_⟩
  · intro hs
    subst hs
    refine ⟨rfl, ?_⟩
    rw [net_payouts_eq, lookupD_applySalary_felix _ _ _ hpp]
    simp [salaryTotal]
  · intro hs
    subst hs
    refine ⟨rfl, ?_⟩
    rw [net_payouts_eq, lookupD_applySalary_felix _ _ _ hpp]
    simp
  · intro n hn
    rw [net_payouts_eq, lookupD_applySalary_other _ _ _ n hn]

theorem c3_salary_application_witness :
    ("Felix" ∈ defaultConfig.fixed_shares.map Prod.fst) ∧
    lookupD (calculate_settlement_values defaultConfig 100000 20000 [("Bett", 5000)]
        ⟨2024,1,8⟩ ⟨2024,1,14⟩ false).net_payouts "Felix"
      = lookupD (provisionalPayouts defaultConfig
          (netDistributable defaultConfig 100000 20000 ⟨2024,1,8⟩ ⟨2024,1,14⟩ false)
          [("Bett", 5000)]) "Felix" + quant (defaultConfig.felix_daily_salary * 7) ∧
    (∀ n, n ≠ "Felix" →
      lookupD (calculate_settlement_values defaultConfig 100000 20000 [("Bett", 5000)]
          ⟨2024,1,8⟩ ⟨2024,1,14⟩ false).net_payouts n
        = lookupD (provisionalPayouts defaultConfig
            (netDistributable defaultConfig 100000 20000 ⟨2024,1,8⟩ ⟨2024,1,14⟩ false)
            [("Bett", 5000)]) n) := by
  have hF : "Felix" ∈ defaultConfig.fixed_shares.map Prod.fst := by
    simp [defaultConfig]
  have h := c3_salary_application defaultConfig 100000 20000 [("Bett", 5000)]
    ⟨2024,1,8⟩ ⟨2024,1,14⟩ false hF
  exact ⟨hF, (h.1 rfl).2, h.2.2⟩

/-- C9: when the operator is over-advanced and no substitute worked, his
    zeroed share payout does not absorb the salary — his final payout is the
    full weekly salary. -/
theorem c9_salary_not_offset (cfg : Config) (ti te : ℚ)
    (adv : List (String × ℚ)) (ws we : PyDate) (rF : ℚ)
    (hnodup : (cfg.fixed_shares.map Prod.fst).Nodup)
    (hF : ("Felix", rF) ∈ cfg.fixed_shares)
    (hov : overAdv (netDistributable cfg ti te ws we false) adv ("Felix", rF) = true) :
    lookupD (calculate_settlement_values cfg ti te adv ws we false).net_payouts "Felix"
      = quant (cfg.felix_daily_salary * 7) := by
  have htoa : 0 < (firstPass (netDistributable cfg ti te ws we false) adv
      cfg.fixed_shares).2.2 :=
    toa_pos _ adv _ ⟨("Felix", rF), hF, hov⟩
  have hpp0 : lookupD (provisionalPayouts cfg (netDistributable cfg ti te ws we false)
      adv) "Felix" = 0 := by
    have h := lookupD_pp cfg (netDistributable cfg ti te ws we false) adv hnodup
      ("Felix", rF) hF htoa
    rw [if_pos hov] at h
    exact h
  have hppF : "Felix" ∈ (provisionalPayouts cfg
      (netDistributable cfg ti te ws we false) adv).map Prod.fst := by
    rw [pp_keys]
    exact List.mem_map_of_mem Prod.fst hF
  rw [net_payouts_eq, lookupD_applySalary_felix _ _ _ hppF, hpp0]
  simp [salaryTotal]

theorem c9_salary_not_offset_witness :
    ((defaultConfig.fixed_shares.map Prod.fst).Nodup) ∧
    (("Felix", (86/1000 : ℚ)) ∈ defaultConfig.fixed_shares) ∧
    (overAdv (netDistributable defaultConfig 100000 20000 ⟨2024,1,8⟩ ⟨2024,1,14⟩ false)
      [("Felix", 60000)] ("Felix", (86/1000 : ℚ)) = true) ∧
    lookupD (calculate_settlement_values defaultConfig 100000 20000 [("Felix", 60000)]
        ⟨2024,1,8⟩ ⟨2024,1,14⟩ false).net_payouts "Felix"
      = quant (defaultConfig.felix_daily_salary * 7) := by
  have hnodup : (defaultConfig.fixed_shares.map Prod.fst).Nodup := by
    simp [defaultConfig]
  have hF : ("Felix", (86/1000 : ℚ)) ∈ defaultConfig.fixed_shares := by
    simp [defaultConfig]
  have hnd : netDistributable defaultConfig 100000 20000 ⟨2024,1,8⟩ ⟨2024,1,14⟩ false
      = 63000 := by
    norm_num [netDistributable, salaryTotal, debtOf, rentOf, milkOf,
      is_last_week_of_month, days_in_month, isleap, PyDate.le, defaultConfig, quant, rhu]
  have hov : overAdv (netDistributable defaultConfig 100000 20000 ⟨2024,1,8⟩
      ⟨2024,1,14⟩ false) [("Felix", 60000)] ("Felix", (86/1000 : ℚ)) = true := by
    rw [hnd]
    have hl : lookupD [("Felix", (60000:ℚ))] "Felix" = 60000 := by simp [lookupD]
    norm_num [overAdv, npv, hl, quant, rhu]
  exact ⟨hnodup, hF, hov,
    c9_salary_not_offset defaultConfig 100000 20000 [("Felix", 60000)]
      ⟨2024,1,8⟩ ⟨2024,1,14⟩ (86/1000) hnodup hF hov⟩

/-- C10: when every configured member is over-advanced the calculator still
    returns: redistribution changes nothing (the guarded division over the
    empty set of normal members is never taken), every provisional share
    payout is 0, and the positive total over-advance goes to nobody. -/
theorem c10_all_over_advanced (cfg : Config) (ti te : ℚ)
    (adv : List (String × ℚ)) (ws we : PyDate) (sub : Bool)
    (hne : cfg.fixed_shares ≠ [])
    (hall : ∀ p ∈ cfg.fixed_shares,
      overAdv (netDistributable cfg ti te ws we sub) adv p = true) :
    0 < (firstPass (netDistributable cfg ti te ws we sub) adv cfg.fixed_shares).2.2 ∧
    provisionalPayouts cfg (netDistributable cfg ti te ws we sub) adv
      = (firstPass (netDistributable cfg ti te ws we sub) adv cfg.fixed_shares).1 ∧
    (∀ q ∈ provisionalPayouts cfg (netDistributable cfg ti te ws we sub) adv,
      q.2 = 0) := by
  obtain ⟨p0, hp0⟩ := List.exists_mem_of_ne_nil cfg.fixed_shares hne
  have htoa : 0 < (firstPass (netDistributable cfg ti te ws we sub) adv
      cfg.fixed_shares).2.2 :=
    toa_pos _ adv _ ⟨p0, hp0, hall p0 hp0⟩
  have hzero : ∀ q ∈ (firstPass (netDistributable cfg ti te ws we sub) adv
      cfg.fixed_shares).1, q.2 = 0 := by
    intro q hq
    rw [firstPass_eq] at hq
    obtain ⟨p, hp, rfl⟩ := List.mem_map.mp hq
    have hlt : npv (netDistributable cfg ti te ws we sub) adv p < 0 := by
      simpa [overAdv] using hall p hp
    exact max_eq_right (le_of_lt hlt)
  have hpp : provisionalPayouts cfg (netDistributable cfg ti te ws we sub) adv
      = (firstPass (netDistributable cfg ti te ws we sub) adv cfg.fixed_shares).1 := by
    rw [pp_eq_redistribute cfg _ adv htoa]
    unfold redistribute
    have hcontains : ∀ q ∈ (firstPass (netDistributable cfg ti te ws we sub) adv
        cfg.fixed_shares).1,
        (((firstPass (netDistributable cfg ti te ws we sub) adv
          cfg.fixed_shares).2.1.map Prod.fst).contains q.1) = true := by
      intro q hq
      rw [oamKeys_eq, my_filter_eq_self _ _ hall, contains_eq_true_iff]
      have hq1 : q.1 ∈ (firstPass (netDistributable cfg ti te ws we sub) adv
          cfg.fixed_shares).1.map Prod.fst := List.mem_map_of_mem Prod.fst hq
      rwa [firstPass_keys] at hq1
    have hmapid : (firstPass (netDistributable cfg ti te ws we sub) adv
        cfg.fixed_shares).1.map (fun p =>
          if (((firstPass (netDistributable cfg ti te ws we sub) adv
              cfg.fixed_shares).2.1.map Prod.fst).contains p.1) then p
          else (p.1, p.2 + quant ((firstPass (netDistributable cfg ti te ws we sub) adv
            cfg.fixed_shares).2.2 * (lookupD cfg.fixed_shares p.1 /
              validShareTotal ((firstPass (netDistributable cfg ti te ws we sub) adv
                cfg.fixed_shares).2.1.map Prod.fst) cfg.fixed_shares))))
        = (firstPass (netDistributable cfg ti te ws we sub) adv
            cfg.fixed_shares).1.map (fun p => p) := by
      apply my_map_congr
      intro q hq
      rw [if_pos (hcontains q hq)]
    rw [hmapid, List.map_id']
  exact ⟨htoa, hpp, fun q hq => hzero q (hpp ▸ hq)⟩

theorem c10_all_over_advanced_witness :
    (defaultConfig.fixed_shares ≠ []) ∧
    (∀ p ∈ defaultConfig.fixed_shares,
      overAdv (netDistributable defaultConfig 1000 0 ⟨2024,1,8⟩ ⟨2024,1,14⟩ true)
        [("Bett", 1000), ("Felix", 1000), ("Willy", 1000)] p = true) ∧
    0 < (firstPass (netDistributable defaultConfig 1000 0 ⟨2024,1,8⟩ ⟨2024,1,14⟩ true)
      [("Bett", 1000), ("Felix", 1000), ("Willy", 1000)] defaultConfig.fixed_shares).2.2 ∧
    provisionalPayouts defaultConfig
        (netDistributable defaultConfig 1000 0 ⟨2024,1,8⟩ ⟨2024,1,14⟩ true)
        [("Bett", 1000), ("Felix", 1000), ("Willy", 1000)]
      = (firstPass (netDistributable defaultConfig 1000 0 ⟨2024,1,8⟩ ⟨2024,1,14⟩ true)
          [("Bett", 1000), ("Felix", 1000), ("Willy", 1000)] defaultConfig.fixed_shares).1 := by
  have hne : defaultConfig.fixed_shares ≠ [] := by simp [defaultConfig]
  have hnd : netDistributable defaultConfig 1000 0 ⟨2024,1,8⟩ ⟨2024,1,14⟩ true = 900 := by
    norm_num [netDistributable, salaryTotal, debtOf, rentOf, milkOf,
      is_last_week_of_month, days_in_month, isleap, PyDate.le, defaultConfig, quant, rhu]
  have hB : lookupD [("Bett", (1000:ℚ)), ("Felix", 1000), ("Willy", 1000)] "Bett"
      = 1000 := by simp [lookupD]
  have hFx : lookupD [("Bett", (1000:ℚ)), ("Felix", 1000), ("Willy", 1000)] "Felix"
      = 1000 := by simp [lookupD]
  have hW : lookupD [("Bett", (1000:ℚ)), ("Felix", 1000), ("Willy", 1000)] "Willy"
      = 1000 := by simp [lookupD]
  have hall : ∀ p ∈ defaultConfig.fixed_shares,
      overAdv (netDistributable defaultConfig 1000 0 ⟨2024,1,8⟩ ⟨2024,1,14⟩ true)
        [("Bett", 1000), ("Felix", 1000), ("Willy", 1000)] p = true := by
    intro p hp
    rw [hnd]
    simp only [defaultConfig, List.mem_cons, List.not_mem_nil, or_false] at hp
    rcases hp with rfl | rfl | rfl
    · norm_num [overAdv, npv, hB, quant, rhu]
    · norm_num [overAdv, npv, hFx, quant, rhu]
    · norm_num [overAdv, npv, hW, quant, rhu]
  have h := c10_all_over_advanced defaultConfig 1000 0
    [("Bett", 1000), ("Felix", 1000), ("Willy", 1000)] ⟨2024,1,8⟩ ⟨2024,1,14⟩ true hne hall
  exact ⟨hne, hall, h.1, h.2.1⟩

/-- C1 counterexample: with every member over-advanced (income 1000, all
    advances 1000) there is an over-advanced member, yet nothing is
    redistributed: the redistributed sum is 0 while the total over-advance is
    2100 and there are no normal members, so conservation within 0.01 per
    normal member fails. -/
theorem c1_redistribution_counterexample :
    (∃ p ∈ defaultConfig.fixed_shares,
      overAdv (netDistributable defaultConfig 1000 0 ⟨2024,1,8⟩ ⟨2024,1,14⟩ true)
        [("Bett", 1000), ("Felix", 1000), ("Willy", 1000)] p = true) ∧
    ¬ (|((provisionalPayouts defaultConfig
          (netDistributable defaultConfig 1000 0 ⟨2024,1,8⟩ ⟨2024,1,14⟩ true)
          [("Bett", 1000), ("Felix", 1000), ("Willy", 1000)]).map Prod.snd).sum
        - ((firstPass (netDistributable defaultConfig 1000 0 ⟨2024,1,8⟩ ⟨2024,1,14⟩ true)
            [("Bett", 1000), ("Felix", 1000), ("Willy", 1000)]
            defaultConfig.fixed_shares).1.map Prod.snd).sum
        - (firstPass (netDistributable defaultConfig 1000 0 ⟨2024,1,8⟩ ⟨2024,1,14⟩ true)
            [("Bett", 1000), ("Felix", 1000), ("Willy", 1000)]
            defaultConfig.fixed_shares).2.2|
      ≤ ((defaultConfig.fixed_shares.filter (fun p =>
          !(overAdv (netDistributable defaultConfig 1000 0 ⟨2024,1,8⟩ ⟨2024,1,14⟩ true)
            [("Bett", 1000), ("Felix", 1000), ("Willy", 1000)] p))).length : ℚ) / 100) := by
  have hnd : netDistributable defaultConfig 1000 0 ⟨2024,1,8⟩ ⟨2024,1,14⟩ true = 900 := by
    norm_num [netDistributable, salaryTotal, debtOf, rentOf, milkOf,
      is_last_week_of_month, days_in_month, isleap, PyDate.le, defaultConfig, quant, rhu]
  have hB : lookupD [("Bett", (1000:ℚ)), ("Felix", 1000), ("Willy", 1000)] "Bett"
      = 1000 := by simp [lookupD]
  have hFx : lookupD [("Bett", (1000:ℚ)), ("Felix", 1000), ("Willy", 1000)] "Felix"
      = 1000 := by simp [lookupD]
  have hW : lookupD [("Bett", (1000:ℚ)), ("Felix", 1000), ("Willy", 1000)] "Willy"
      = 1000 := by simp [lookupD]
  have hfp : firstPass 900 [("Bett", (1000:ℚ)), ("Felix", 1000), ("Willy", 1000)]
      defaultConfig.fixed_shares
      = ([("Bett", 0), ("Felix", 0), ("Willy", 0)],
         [("Bett", 605/2), ("Felix", 4613/5), ("Willy", 8749/10)], 2100) := by
    norm_num [firstPass, hB, hFx, hW, quant, rhu, defaultConfig]
  have hpp : provisionalPayouts defaultConfig 900
      [("Bett", (1000:ℚ)), ("Felix", 1000), ("Willy", 1000)]
      = [("Bett", 0), ("Felix", 0), ("Willy", 0)] := by
    rw [pp_eq_redistribute _ _ _ (by rw [hfp]; norm_num), hfp]
    norm_num [redistribute]
  constructor
  · refine ⟨("Bett", 775/1000), by simp [defaultConfig], ?_⟩
    rw [hnd]
    norm_num [overAdv, npv, hB, quant, rhu]
  · rw [hnd, hpp, hfp]
    have hflt : defaultConfig.fixed_shares.filter (fun p =>
        !(overAdv (900:ℚ) [("Bett", (1000:ℚ)), ("Felix", 1000), ("Willy", 1000)] p))
        = [] := by
      norm_num [List.filter, overAdv, npv, hB, hFx, hW, quant, rhu, defaultConfig]
    norm_num [hflt]

/-- C1 (amended): with at least one over-advanced member AND a positive share
    total among the normal members, the calculator records each over-advanced
    member's excess, zeroes their provisional payout, gives each normal member
    the quantized amount proportional to its share over the normal share
    total, and the redistributed sum matches the total over-advance within
    0.01 per normal member. -/
theorem c1_redistribution_amended (cfg : Config) (ti te : ℚ)
    (adv : List (String × ℚ)) (ws we : PyDate) (sub : Bool)
    (hnodup : (cfg.fixed_shares.map Prod.fst).Nodup)
    (hover : ∃ p ∈ cfg.fixed_shares,
      overAdv (netDistributable cfg ti te ws we sub) adv p = true)
    (hS : 0 < validShareTotal ((firstPass (netDistributable cfg ti te ws we sub) adv
      cfg.fixed_shares).2.1.map Prod.fst) cfg.fixed_shares) :
    (firstPass (netDistributable cfg ti te ws we sub) adv cfg.fixed_shares).2.1
      = (cfg.fixed_shares.filter (fun p =>
          overAdv (netDistributable cfg ti te ws we sub) adv p)).map
          (fun p => (p.1, quant (lookupD adv p.1)
            - quant ((netDistributable cfg ti te ws we sub) * p.2))) ∧
    (∀ p ∈ cfg.fixed_shares,
      overAdv (netDistributable cfg ti te ws we sub) adv p = true →
      lookupD (provisionalPayouts cfg (netDistributable cfg ti te ws we sub) adv) p.1
        = 0) ∧
    (∀ p ∈ cfg.fixed_shares,
      overAdv (netDistributable cfg ti te ws we sub) adv p = false →
      lookupD (provisionalPayouts cfg (netDistributable cfg ti te ws we sub) adv) p.1
        = npv (netDistributable cfg ti te ws we sub) adv p
          + quant ((firstPass (netDistributable cfg ti te ws we sub) adv
              cfg.fixed_shares).2.2
            * (p.2 / validShareTotal ((firstPass (netDistributable cfg ti te ws we sub)
                adv cfg.fixed_shares).2.1.map Prod.fst) cfg.fixed_shares))) ∧
    |((provisionalPayouts cfg (netDistributable cfg ti te ws we sub) adv).map
        Prod.snd).sum
      - ((firstPass (netDistributable cfg ti te ws we sub) adv
          cfg.fixed_shares).1.map Prod.snd).sum
      - (firstPass (netDistributable cfg ti te ws we sub) adv
          cfg.fixed_shares).2.2|
    ≤ ((cfg.fixed_shares.filter (fun p =>
        !(overAdv (netDistributable cfg ti te ws we sub) adv p))).length : ℚ) / 100 := by
  have htoa : 0 < (firstPass (netDistributable cfg ti te ws we sub) adv
      cfg.fixed_shares).2.2 := toa_pos _ adv _ hover
  refine ⟨?_, ?_, ?_, ?_⟩
  · rw [firstPass_eq]
    apply my_map_congr
    intro p _
    simp only [npv]
    rw [neg_sub]
  · intro p hp hov
    have h := lookupD_pp cfg (netDistributable cfg ti te ws we sub) adv hnodup p hp htoa
    rw [if_pos hov] at h
    exact h
  · intro p hp hov
    have h := lookupD_pp cfg (netDistributable cfg ti te ws we sub) adv hnodup p hp htoa
    rw [if_neg (by rw [hov]; simp)] at h
    exact h
  · exact redistribution_conservation cfg _ adv hnodup htoa hS

theorem c1_redistribution_amended_witness :
    ((defaultConfig.fixed_shares.map Prod.fst).Nodup) ∧
    (∃ p ∈ defaultConfig.fixed_shares,
      overAdv (netDistributable defaultConfig 100000 20000 ⟨2024,1,8⟩ ⟨2024,1,14⟩ false)
        [("Bett", 60000)] p = true) ∧
    (0 < validShareTotal ((firstPass (netDistributable defaultConfig 100000 20000
        ⟨2024,1,8⟩ ⟨2024,1,14⟩ false) [("Bett", 60000)]
        defaultConfig.fixed_shares).2.1.map Prod.fst) defaultConfig.fixed_shares) ∧
    |((provisionalPayouts defaultConfig (netDistributable defaultConfig 100000 20000
          ⟨2024,1,8⟩ ⟨2024,1,14⟩ false) [("Bett", 60000)]).map Prod.snd).sum
      - ((firstPass (netDistributable defaultConfig 100000 20000 ⟨2024,1,8⟩ ⟨2024,1,14⟩
          false) [("Bett", 60000)] defaultConfig.fixed_shares).1.map Prod.snd).sum
      - (firstPass (netDistributable defaultConfig 100000 20000 ⟨2024,1,8⟩ ⟨2024,1,14⟩
          false) [("Bett", 60000)] defaultConfig.fixed_shares).2.2|
    ≤ ((defaultConfig.fixed_shares.filter (fun p =>
        !(overAdv (netDistributable defaultConfig 100000 20000 ⟨2024,1,8⟩ ⟨2024,1,14⟩
          false) [("Bett", 60000)] p))).length : ℚ) / 100 := by
  have hnodup : (defaultConfig.fixed_shares.map Prod.fst).Nodup := by
    simp [defaultConfig]
  have hnd : netDistributable defaultConfig 100000 20000 ⟨2024,1,8⟩ ⟨2024,1,14⟩ false
      = 63000 := by
    norm_num [netDistributable, salaryTotal, debtOf, rentOf, milkOf,
      is_last_week_of_month, days_in_month, isleap, PyDate.le, defaultConfig, quant, rhu]
  have hB : lookupD [("Bett", (60000:ℚ))] "Bett" = 60000 := by simp [lookupD]
  have hFx : lookupD [("Bett", (60000:ℚ))] "Felix" = 0 := by simp [lookupD]
  have hW : lookupD [("Bett", (60000:ℚ))] "Willy" = 0 := by simp [lookupD]
  have hfp : firstPass 63000 [("Bett", (60000:ℚ))] defaultConfig.fixed_shares
      = ([("Bett", 0), ("Felix", 5418), ("Willy", 8757)], [("Bett", 11175)], 11175) := by
    norm_num [firstPass, hB, hFx, hW, quant, rhu, defaultConfig]
  have hover : ∃ p ∈ defaultConfig.fixed_shares,
      overAdv (netDistributable defaultConfig 100000 20000 ⟨2024,1,8⟩ ⟨2024,1,14⟩ false)
        [("Bett", 60000)] p = true := by
    refine ⟨("Bett", 775/1000), by simp [defaultConfig], ?_⟩
    rw [hnd]
    norm_num [overAdv, npv, hB, quant, rhu]
  have hS : 0 < validShareTotal ((firstPass (netDistributable defaultConfig 100000 20000
      ⟨2024,1,8⟩ ⟨2024,1,14⟩ false) [("Bett", 60000)]
      defaultConfig.fixed_shares).2.1.map Prod.fst) defaultConfig.fixed_shares := by
    have hc1 : (["Bett"] : List String).contains "Bett" = true := by decide
    have hc2 : (["Bett"] : List String).contains "Felix" = false := by decide
    have hc3 : (["Bett"] : List String).contains "Willy" = false := by decide
    have hvst : validShareTotal (["Bett"] : List String) defaultConfig.fixed_shares
        = 9/40 := by
      simp only [validShareTotal, defaultConfig]
      rw [hc1, hc2, hc3]
      norm_num
    rw [hnd, hfp]
    simp only [List.map_cons, List.map_nil]
    rw [hvst]
    norm_num
  exact ⟨hnodup, hover, hS,
    (c1_redistribution_amended defaultConfig 100000 20000 [("Bett", 60000)]
      ⟨2024,1,8⟩ ⟨2024,1,14⟩ false hnodup hover hS).2.2.2⟩

theorem my_filter_eq_nil {α : Type} (l : List α) (p : α → Bool)
    (h : ∀ x ∈ l, p x = false) : l.filter p = [] := by
  induction l with
  | nil => simp
  | cons a t ih =>
    rw [List.filter_cons, if_neg (by rw [h a (List.mem_cons_self a t)]; simp),
      ih (fun x hx => h x (List.mem_cons_of_mem a hx))]

/-- Salary step changes the payout sum by the amounts given to entries named
    `Felix`. -/
theorem sum_applySalary_diff (s : ℚ) (sub : Bool) (l : List (String × ℚ)) :
    ((applySalary s sub l).map Prod.snd).sum
      = (l.map Prod.snd).sum
        + (l.map (fun p => if p.1 == "Felix" && !sub then s else 0)).sum := by
  unfold applySalary
  rw [List.map_map]
  have h : ∀ p : String × ℚ,
      (Prod.snd ∘ fun p => if p.1 == "Felix" && !sub then (p.1, p.2 + s) else p) p
        = p.2 + (if p.1 == "Felix" && !sub then s else 0) := by
    intro p
    by_cases hc : (p.1 == "Felix" && !sub) = true
    · simp only [Function.comp, if_pos hc]
    · simp only [Function.comp, if_neg hc, add_zero]
  rw [my_map_congr _ _ _ (fun p _ => h p), sum_map_add]

theorem sum_ite_felix (s : ℚ) (l : List (String × ℚ))
    (hl : (l.map Prod.fst).Nodup) (hF : "Felix" ∈ l.map Prod.fst) :
    (l.map (fun p => if p.1 == "Felix" then s else 0)).sum = s := by
  induction l with
  | nil => simp at hF
  | cons a t ih =>
    obtain ⟨ha, ht⟩ := List.nodup_cons.mp hl
    rw [List.map_cons, List.sum_cons]
    by_cases hk : a.1 = "Felix"
    · rw [if_pos (by simp [hk])]
      have hzero : t.map (fun p => if p.1 == "Felix" then s else 0)
          = t.map (fun _ => (0:ℚ)) := by
        apply my_map_congr
        intro q hq
        have hqk : q.1 ≠ "Felix" := by
          intro hcontra
          exact ha (hk ▸ hcontra ▸ List.mem_map_of_mem Prod.fst hq)
        rw [if_neg (by simp [hqk])]
      rw [hzero]
      simp
    · rw [if_neg (by simp [hk])]
      have hFt : "Felix" ∈ t.map Prod.fst := by
        rw [List.map_cons] at hF
        rcases List.mem_cons.mp hF with h | h
        · exact absurd h.symm hk
        · exact h
      rw [ih ht hFt]
      ring

/-- C2 counterexample: in the spec's own worked example (income 100000,
    expenses 20000, advance Bett 5000, no substitute) no member is
    over-advanced, yet the final payouts sum to 65000 while net_distributable
    is 63000: the identity fails because advances and the salary top-up are
    not accounted for. -/
theorem c2_accounting_counterexample :
    (∀ p ∈ defaultConfig.fixed_shares,
      overAdv (netDistributable defaultConfig 100000 20000 ⟨2024,1,8⟩ ⟨2024,1,14⟩ false)
        [("Bett", 5000)] p = false) ∧
    ¬ (|((calculate_settlement_values defaultConfig 100000 20000 [("Bett", 5000)]
          ⟨2024,1,8⟩ ⟨2024,1,14⟩ false).net_payouts.map Prod.snd).sum
        - (calculate_settlement_values defaultConfig 100000 20000 [("Bett", 5000)]
          ⟨2024,1,8⟩ ⟨2024,1,14⟩ false).net_distributable|
      ≤ (defaultConfig.fixed_shares.length : ℚ) / 100) := by
  have hnd : netDistributable defaultConfig 100000 20000 ⟨2024,1,8⟩ ⟨2024,1,14⟩ false
      = 63000 := by
    norm_num [netDistributable, salaryTotal, debtOf, rentOf, milkOf,
      is_last_week_of_month, days_in_month, isleap, PyDate.le, defaultConfig, quant, rhu]
  have hB : lookupD [("Bett", (5000:ℚ))] "Bett" = 5000 := by simp [lookupD]
  have hFx : lookupD [("Bett", (5000:ℚ))] "Felix" = 0 := by simp [lookupD]
  have hW : lookupD [("Bett", (5000:ℚ))] "Willy" = 0 := by simp [lookupD]
  have hfp : firstPass 63000 [("Bett", (5000:ℚ))] defaultConfig.fixed_shares
      = ([("Bett", 43825), ("Felix", 5418), ("Willy", 8757)], [], 0) := by
    norm_num [firstPass, hB, hFx, hW, quant, rhu, defaultConfig]
  constructor
  · intro p hp
    rw [hnd]
    simp only [defaultConfig, List.mem_cons, List.not_mem_nil, or_false] at hp
    rcases hp with rfl | rfl | rfl
    · norm_num [overAdv, npv, hB, quant, rhu]
    · norm_num [overAdv, npv, hFx, quant, rhu]
    · norm_num [overAdv, npv, hW, quant, rhu]
  · have hsum : ((calculate_settlement_values defaultConfig 100000 20000 [("Bett", 5000)]
        ⟨2024,1,8⟩ ⟨2024,1,14⟩ false).net_payouts.map Prod.snd).sum = 65000 := by
      have hbf : ("Bett" = "Felix") = False := by simp
      have hwf : ("Willy" = "Felix") = False := by simp
      rw [net_payouts_eq, hnd,
        pp_eq_initial _ _ _ (by rw [hfp]; norm_num), hfp]
      norm_num [applySalary, salaryTotal, quant, rhu, defaultConfig, hbf, hwf]
    have hnd2 : (calculate_settlement_values defaultConfig 100000 20000 [("Bett", 5000)]
        ⟨2024,1,8⟩ ⟨2024,1,14⟩ false).net_distributable = 63000 := hnd
    rw [hsum, hnd2]
    norm_num [defaultConfig]

/-- C2 (amended): with no member over-advanced, member names distinct, the
    operator among the configured members and share ratios summing to 1, the
    final payouts sum to `net_distributable` minus the members' quantized
    advances plus the salary total, within `num_members × 0.01`. -/
theorem c2_accounting_amended (cfg : Config) (ti te : ℚ)
    (adv : List (String × ℚ)) (ws we : PyDate) (sub : Bool)
    (hnodup : (cfg.fixed_shares.map Prod.fst).Nodup)
    (hF : "Felix" ∈ cfg.fixed_shares.map Prod.fst)
    (hsum1 : (cfg.fixed_shares.map Prod.snd).sum = 1)
    (hnorm : ∀ p ∈ cfg.fixed_shares,
      overAdv (netDistributable cfg ti te ws we sub) adv p = false) :
    |((calculate_settlement_values cfg ti te adv ws we sub).net_payouts.map
        Prod.snd).sum
      - ((netDistributable cfg ti te ws we sub)
        - ((cfg.fixed_shares.map (fun p => quant (lookupD adv p.1))).sum)
        + salaryTotal cfg sub)|
    ≤ (cfg.fixed_shares.length : ℚ) / 100 := by
  set nd := netDistributable cfg ti te ws we sub with hnddef
  have htoa0 : (firstPass nd adv cfg.fixed_shares).2.2 = 0 := by
    simp only [firstPass_eq]
    rw [my_filter_eq_nil _ _ hnorm]
    simp
  have hppi : provisionalPayouts cfg nd adv = (firstPass nd adv cfg.fixed_shares).1 :=
    pp_eq_initial cfg nd adv (by rw [htoa0]; exact lt_irrefl 0)
  have hppnodup : ((provisionalPayouts cfg nd adv).map Prod.fst).Nodup := by
    rw [pp_keys]; exact hnodup
  have hppF : "Felix" ∈ (provisionalPayouts cfg nd adv).map Prod.fst := by
    rw [pp_keys]; exact hF
  have hite : ((provisionalPayouts cfg nd adv).map
      (fun p => if p.1 == "Felix" && !sub then salaryTotal cfg sub else 0)).sum
      = salaryTotal cfg sub := by
    cases sub with
    | true =>
      have hzero : (provisionalPayouts cfg nd adv).map
          (fun p => if p.1 == "Felix" && !true then salaryTotal cfg true else 0)
          = (provisionalPayouts cfg nd adv).map (fun _ => (0:ℚ)) := by
        apply my_map_congr
        intro q _
        simp
      rw [hzero]
      simp [salaryTotal]
    | false =>
      have hsimp : (provisionalPayouts cfg nd adv).map
          (fun p => if p.1 == "Felix" && !false then salaryTotal cfg false else 0)
          = (provisionalPayouts cfg nd adv).map
            (fun p => if p.1 == "Felix" then salaryTotal cfg false else 0) := by
        apply my_map_congr
        intro q _
        simp
      rw [hsimp, sum_ite_felix _ _ hppnodup hppF]
  have hipsum : ((firstPass nd adv cfg.fixed_shares).1.map Prod.snd).sum
      = (cfg.fixed_shares.map (fun p => quant (nd * p.2))).sum
        - (cfg.fixed_shares.map (fun p => quant (lookupD adv p.1))).sum := by
    simp only [firstPass_eq, List.map_map]
    have h1 : cfg.fixed_shares.map (Prod.snd ∘ fun p => (p.1, max (npv nd adv p) 0))
        = cfg.fixed_shares.map (fun p => quant (nd * p.2) - quant (lookupD adv p.1)) := by
      apply my_map_congr
      intro p hp
      have hnn : ¬ npv nd adv p < 0 := by simpa [overAdv] using hnorm p hp
      show max (npv nd adv p) 0 = _
      rw [max_eq_left (le_of_not_lt hnn)]
      rfl
    rw [h1, sum_map_sub cfg.fixed_shares (fun p => quant (nd * p.2))
      (fun p => quant (lookupD adv p.1))]
  have hexact : (cfg.fixed_shares.map (fun p => nd * p.2)).sum = nd := by
    rw [sum_map_mul_left cfg.fixed_shares nd Prod.snd, hsum1, mul_one]
  have hgross := abs_sum_quant_sub_le (cfg.fixed_shares.map (fun p => nd * p.2))
  rw [List.map_map, hexact, List.length_map] at hgross
  have hcomp : cfg.fixed_shares.map (quant ∘ fun p => nd * p.2)
      = cfg.fixed_shares.map (fun p => quant (nd * p.2)) :=
    my_map_congr _ _ _ (fun p _ => rfl)
  rw [hcomp] at hgross
  have hkey : ((calculate_settlement_values cfg ti te adv ws we sub).net_payouts.map
        Prod.snd).sum
      - (nd - ((cfg.fixed_shares.map (fun p => quant (lookupD adv p.1))).sum)
        + salaryTotal cfg sub)
      = (cfg.fixed_shares.map (fun p => quant (nd * p.2))).sum - nd := by
    rw [net_payouts_eq, sum_applySalary_diff, hite, hppi, hipsum]
    ring
  rw [hkey]
  have hlen : (0:ℚ) ≤ (cfg.fixed_shares.length : ℚ) := by positivity
  calc |(cfg.fixed_shares.map (fun p => quant (nd * p.2))).sum - nd|
      ≤ (cfg.fixed_shares.length : ℚ) / 200 := hgross
    _ ≤ (cfg.fixed_shares.length : ℚ) / 100 := by linarith

theorem c2_accounting_amended_witness :
    ((defaultConfig.fixed_shares.map Prod.fst).Nodup) ∧
    ("Felix" ∈ defaultConfig.fixed_shares.map Prod.fst) ∧
    ((defaultConfig.fixed_shares.map Prod.snd).sum = 1) ∧
    (∀ p ∈ defaultConfig.fixed_shares,
      overAdv (netDistributable defaultConfig 100000 20000 ⟨2024,1,8⟩ ⟨2024,1,14⟩ false)
        [("Bett", 5000)] p = false) ∧
    |((calculate_settlement_values defaultConfig 100000 20000 [("Bett", 5000)]
        ⟨2024,1,8⟩ ⟨2024,1,14⟩ false).net_payouts.map Prod.snd).sum
      - ((netDistributable defaultConfig 100000 20000 ⟨2024,1,8⟩ ⟨2024,1,14⟩ false)
        - ((defaultConfig.fixed_shares.map (fun p =>
            quant (lookupD [("Bett", 5000)] p.1))).sum)
        + salaryTotal defaultConfig false)|
    ≤ (defaultConfig.fixed_shares.length : ℚ) / 100 := by
  have hnodup : (defaultConfig.fixed_shares.map Prod.fst).Nodup := by
    simp [defaultConfig]
  have hF : "Felix" ∈ defaultConfig.fixed_shares.map Prod.fst := by
    simp [defaultConfig]
  have hsum1 : (defaultConfig.fixed_shares.map Prod.snd).sum = 1 := by
    norm_num [defaultConfig]
  have hnd : netDistributable defaultConfig 100000 20000 ⟨2024,1,8⟩ ⟨2024,1,14⟩ false
      = 63000 := by
    norm_num [netDistributable, salaryTotal, debtOf, rentOf, milkOf,
      is_last_week_of_month, days_in_month, isleap, PyDate.le, defaultConfig, quant, rhu]
  have hB : lookupD [("Bett", (5000:ℚ))] "Bett" = 5000 := by simp [lookupD]
  have hFx : lookupD [("Bett", (5000:ℚ))] "Felix" = 0 := by simp [lookupD]
  have hW : lookupD [("Bett", (5000:ℚ))] "Willy" = 0 := by simp [lookupD]
  have hnorm : ∀ p ∈ defaultConfig.fixed_shares,
      overAdv (netDistributable defaultConfig 100000 20000 ⟨2024,1,8⟩ ⟨2024,1,14⟩ false)
        [("Bett", 5000)] p = false := by
    intro p hp
    rw [hnd]
    simp only [defaultConfig, List.mem_cons, List.not_mem_nil, or_false] at hp
    rcases hp with rfl | rfl | rfl
    · norm_num [overAdv, npv, hB, quant, rhu]
    · norm_num [overAdv, npv, hFx, quant, rhu]
    · norm_num [overAdv, npv, hW, quant, rhu]
  exact ⟨hnodup, hF, hsum1, hnorm,
    c2_accounting_amended defaultConfig 100000 20000 [("Bett", 5000)]
      ⟨2024,1,8⟩ ⟨2024,1,14⟩ false hnodup hF hsum1 hnorm⟩

end Shr
